import Mathlib

/-!
# Verification of the Transport-Authority chat frontend core

A shallow embedding, in Lean 4, of the procedural core of the
Transport-Authority chat frontend:

* the Agent Request Gateway (`useAgentAPI.ts`: `sendMessage`,
  `sendMessageWithCallback`),
* the Graph Animation Sequencer (`MainArea.tsx`: `waitForAnimationAndRun`,
  `animateGraph`, `animate`),
* the Viewport Fit Calculator (`useViewportAwareFitView.ts`:
  `fitViewWithViewportLogic`),
* the Chat Panel Height Observer (`useChatAreaMeasurement`:
  `debouncedHeightUpdate`).

State is passed explicitly; the browser's single-threaded event loop is
modelled, where needed, as an explicit interleaving of atomic blocks
(the synchronous stretches between `await` points); JS numbers are
modelled as exact rationals; exceptions are modelled with explicit
`Except` results.
-/

namespace TransportAuthority

/-! ## Data model: chat messages (types/Message.ts, utils/const.ts) -/

/-- `Message` from `types/Message.ts`: role, content, client-side id,
and the progressive-reveal flag. -/
structure Message where
  role : String
  content : String
  id : String
  animate : Bool
deriving Repr, DecidableEq

namespace Role

/-- `Role.USER` from `utils/const.ts`. -/
def USER : String := "user"

/-- `Role.ASSISTANT` from `utils/const.ts`. -/
def ASSISTANT : String := "assistant"

end Role

/-! ## Agent Request Gateway (hooks/useAgentAPI.ts)

The hook's visible state is the message log (held by the caller and
mutated through `setMessages`) together with the `loading` flag.  The
network call `axios.post` either resolves with a response string or
rejects; both are modelled by `NetOutcome`.  Caller-supplied callbacks
may throw synchronously; an absent callback behaves like a present
non-throwing one as far as state is concerned, so callbacks are
modelled by three may-throw flags.  `uuid()` is modelled by passing the
generated ids explicitly. -/

/-- Combined visible state of the gateway: the caller's message log and
the hook's `loading` flag. -/
structure AgentState where
  messages : List Message
  loading : Bool
deriving Repr, DecidableEq

/-- Outcome of the `axios.post` call to `/agent/prompt`: resolve with a
response string, or reject (network error, non-2xx, timeout). -/
inductive NetOutcome where
  | success (response : String)
  | failure
deriving Repr, DecidableEq

/-- Observable side effects of a gateway call, in order: callback
invocations and the network request itself. -/
inductive Event where
  | onStart
  | request (prompt : String)
  | onSuccess (response : String)
  | onError
deriving Repr, DecidableEq

/-- Caller-supplied callbacks, reduced to whether each one throws
synchronously when invoked. -/
structure Callbacks where
  onStartThrows : Bool
  onSuccessThrows : Bool
  onErrorThrows : Bool
deriving Repr, DecidableEq

/-- Callbacks that do not throw (also the model of absent callbacks). -/
def Callbacks.noThrow : Callbacks := ⟨false, false, false⟩

/-- The fixed fallback string written into the log on failure
(`useAgentAPI.ts` line 121). -/
def errorMessage : String := "Sorry, I encountered an error."

/-- JS `String.prototype.trim`: strip whitespace from both ends. -/
def jsTrim (s : String) : String :=
  ⟨((s.data.dropWhile Char.isWhitespace).reverse.dropWhile Char.isWhitespace).reverse⟩

/-- JS array write `arr[arr.length - 1] = m` as a list operation: on a
non-empty array it replaces the last element; on an empty array the
write goes to property `-1`, which leaves the array (as a sequence)
empty and raises no error. -/
def setLastJS (l : List Message) (m : Message) : List Message :=
  match l with
  | [] => []
  | _ :: _ => l.dropLast ++ [m]

/-- `sendMessageWithCallback` from `useAgentAPI.ts` (lines 58–134).
Returns the final state, the emitted events in order, and whether the
returned promise resolves (`Except.ok`) or rejects (`Except.error`).
`uid`/`pid` are the `uuid()` values of the user and placeholder
messages, `rid`/`eid` those of the success and error rewrites.

Control flow mirrors the source: the empty-trim guard returns first;
the user/placeholder pair is appended and `loading` set; `onStart` is
invoked *before* the `try` block, so a throw there propagates without
running the `finally` clause; inside the `try`, success rewrites the
last element and calls `onSuccess` (a throw in `onSuccess` falls into
the `catch`, which rewrites the last element again with the fallback
string and calls `onError`); rejection runs the `catch`; the `finally`
clears `loading` on every path that reached the `try`. -/
def sendMessageWithCallback (prompt : String) (cb : Callbacks) (net : NetOutcome)
    (uid pid rid eid : String) (st : AgentState) :
    AgentState × List Event × Except Unit Unit :=
  if jsTrim prompt = "" then (st, [], Except.ok ())
  else
    let userMessage : Message := ⟨Role.USER, prompt, uid, false⟩
    let loadingMessage : Message := ⟨Role.ASSISTANT, "...", pid, true⟩
    let msgs1 := st.messages ++ [userMessage, loadingMessage]
    if cb.onStartThrows then
      (⟨msgs1, true⟩, [Event.onStart], Except.error ())
    else
      match net with
      | NetOutcome.success r =>
        let msgs2 := setLastJS msgs1 ⟨Role.ASSISTANT, r, rid, true⟩
        if cb.onSuccessThrows then
          let msgs3 := setLastJS msgs2 ⟨Role.ASSISTANT, errorMessage, eid, false⟩
          (⟨msgs3, false⟩,
           [Event.onStart, Event.request prompt, Event.onSuccess r, Event.onError],
           if cb.onErrorThrows then Except.error () else Except.ok ())
        else
          (⟨msgs2, false⟩,
           [Event.onStart, Event.request prompt, Event.onSuccess r],
           Except.ok ())
      | NetOutcome.failure =>
        let msgs3 := setLastJS msgs1 ⟨Role.ASSISTANT, errorMessage, eid, false⟩
        (⟨msgs3, false⟩,
         [Event.onStart, Event.request prompt, Event.onError],
         if cb.onErrorThrows then Except.error () else Except.ok ())

/-- Result of the promise-returning `sendMessage` variant: resolve with
the response, or reject with a thrown `Error` message / the rethrown
network error. -/
inductive SendResult where
  | ok (response : String)
  | thrown (message : String)
  | netError
deriving Repr, DecidableEq

/-- `sendMessage` from `useAgentAPI.ts` (lines 37–56): empty-trim input
throws `Error("Prompt cannot be empty")` before `setLoading(true)` and
before any request; otherwise `loading` is set, the request issued, the
response returned (or the error rethrown), and `loading` cleared by the
`finally` clause. -/
def sendMessage (prompt : String) (net : NetOutcome) (st : AgentState) :
    SendResult × AgentState × List Event :=
  if jsTrim prompt = "" then
    (SendResult.thrown "Prompt cannot be empty", st, [])
  else
    match net with
    | NetOutcome.success r =>
      (SendResult.ok r, ⟨st.messages, false⟩, [Event.request prompt])
    | NetOutcome.failure =>
      (SendResult.netError, ⟨st.messages, false⟩, [Event.request prompt])

/-! ## Graph Animation Sequencer (components/MainArea/MainArea.tsx)

A sweep is driven by `animateGraph`, which runs inside the
`waitForAnimationAndRun` effect after the animation lock is acquired.
Its observable behaviour is the ordered trace of `updateStyle` toggles
and awaited delays, plus the final values of the `aiReplied` and
`buttonClicked` flags and of the lock.  Node/edge ids are strings. -/

/-- `DELAY_DURATION` from `MainArea.tsx` line 54: the fixed highlight
duration in milliseconds. -/
def DELAY_DURATION : Nat := 500

/-- The polling delay, in milliseconds, used while waiting for the
animation lock (`MainArea.tsx` line 150: `await delay(100)`). -/
def POLL_DELAY : Nat := 100

namespace HIGHLIGHT

/-- `HIGHLIGHT.ON` from `MainArea.tsx`. -/
def ON : Bool := true

/-- `HIGHLIGHT.OFF` from `MainArea.tsx`. -/
def OFF : Bool := false

end HIGHLIGHT

/-- One step of the static `animationSequence`: the node/edge ids to
highlight together. -/
structure AnimStep where
  ids : List String
deriving Repr, DecidableEq

/-- An observable action of the sequencer: an `updateStyle(id, active)`
toggle, or an awaited `delay(ms)`. -/
inductive Action where
  | toggle (id : String) (active : Bool)
  | wait (ms : Nat)
deriving Repr, DecidableEq

/-- `animate(ids, active)` from `MainArea.tsx` (lines 155–158): toggle
every listed id to `active`, then await the fixed highlight delay. -/
def animate (ids : List String) (active : Bool) : List Action :=
  ids.map (fun i => Action.toggle i active) ++ [Action.wait DELAY_DURATION]

/-- The `for (const step of animationSequence)` loop body of
`animateGraph`: a full highlight→unhighlight pulse per step, in
sequence order. -/
def sweep : List AnimStep → List Action
  | [] => []
  | step :: rest =>
    animate step.ids HIGHLIGHT.ON ++ animate step.ids HIGHLIGHT.OFF ++ sweep rest

/-- Result of one `animateGraph` run: the action trace and the final
values of `aiReplied`, `buttonClicked` and the animation lock. -/
structure SequencerResult where
  actions : List Action
  aiReplied : Bool
  buttonClicked : Bool
  animationLock : Bool
deriving Repr, DecidableEq

/-- `animateGraph` from `MainArea.tsx` (lines 160–173), run with the
lock held: if `aiReplied` is false, perform the sweep (leaving
`aiReplied` as it was); otherwise skip it and reset `aiReplied`; in
both branches reset `buttonClicked` and release the lock at the end. -/
def animateGraph (aiReplied : Bool) (seq : List AnimStep) : SequencerResult :=
  if !aiReplied then
    { actions := sweep seq, aiReplied := aiReplied,
      buttonClicked := false, animationLock := false }
  else
    { actions := [], aiReplied := false,
      buttonClicked := false, animationLock := false }

/-! ### Interleaving semantics for the animation lock

`waitForAnimationAndRun` (`MainArea.tsx` lines 148–176) runs on the
single-threaded JS event loop: code between `await` points is atomic.
The poll loop `while (animationLock.current) await delay(100)` re-checks
after each 100 ms delay, and the store `animationLock.current = true`
follows the final (false) check with no `await` in between, so
check-and-acquire is one atomic block that continues synchronously into
the first step's ON toggles.  A sweep by one trigger is therefore a
sequence of atomic blocks separated by awaited delays:

* block 0: acquire the lock and toggle step 0's ids ON;
* then, alternating after each delay: toggle OFF / toggle the next
  step's ids ON;
* final block: reset `buttonClicked` and release the lock.

A trigger whose sequence is empty (or whose sweep is short-circuited by
`aiReplied`) acquires and releases within a single synchronous block.  A
trigger arriving while the lock is held polls: its scheduled block does
nothing. -/

/-- A single `updateStyle` toggle, tagged with which trigger performed
it. -/
structure Tog where
  task : Nat
  id : String
  active : Bool
deriving Repr, DecidableEq

/-- The ON-block of a step: toggle all its ids active. -/
def onBlock (task : Nat) (step : AnimStep) : List Tog :=
  step.ids.map (fun i => ⟨task, i, true⟩)

/-- The OFF-block of a step: toggle all its ids inactive. -/
def offBlock (task : Nat) (step : AnimStep) : List Tog :=
  step.ids.map (fun i => ⟨task, i, false⟩)

/-- The toggle blocks of one full sweep by one trigger, in order. -/
def sweepBlocks (task : Nat) (seq : List AnimStep) : List (List Tog) :=
  seq.flatMap (fun step => [onBlock task step, offBlock task step])

/-- Where a trigger's run of `waitForAnimationAndRun` stands: polling
for the lock with its sweep still ahead, holding the lock with the
given blocks left (the release follows the last block), or finished. -/
inductive TaskState where
  | waiting (blocks : List (List Tog))
  | running (blocks : List (List Tog))
  | done
deriving Repr, DecidableEq

/-- Whether the trigger currently holds the lock. -/
def TaskState.isRunning : TaskState → Bool
  | .running _ => true
  | _ => false

/-- Whether the trigger is still polling for the lock. -/
def TaskState.isWaiting : TaskState → Bool
  | .waiting _ => true
  | _ => false

/-- The toggle blocks the trigger has yet to emit. -/
def TaskState.pending : TaskState → List (List Tog)
  | .waiting bs => bs
  | .running bs => bs
  | .done => []

/-- One atomic block of one trigger: poll (a no-op while the lock is
held), acquire-and-run the first block (acquire-and-release if there is
none), run the next block, or release the lock after the last block.
Returns the new lock value, the new task state, and the emitted
toggles. -/
def taskStep : Bool → TaskState → Bool × TaskState × List Tog
  | true, .waiting blocks => (true, .waiting blocks, [])
  | false, .waiting [] => (false, .done, [])
  | false, .waiting (b :: rest) => (true, .running rest, b)
  | _, .running [] => (false, .done, [])
  | lock, .running (b :: rest) => (lock, .running rest, b)
  | lock, .done => (lock, .done, [])

/-- The whole system: the process-wide lock, the two overlapping
triggers, and the toggles emitted so far, in order. -/
structure Sys where
  lock : Bool
  t0 : TaskState
  t1 : TaskState
  trace : List Tog
deriving Repr, DecidableEq

/-- One scheduler step: run the chosen trigger's next atomic block. -/
def sysStep (s : Sys) : Bool → Sys
  | true =>
    let r := taskStep s.lock s.t1
    ⟨r.1, s.t0, r.2.1, s.trace ++ r.2.2⟩
  | false =>
    let r := taskStep s.lock s.t0
    ⟨r.1, r.2.1, s.t1, s.trace ++ r.2.2⟩

/-- Run a whole schedule of atomic blocks. -/
def sysRun (s : Sys) (sched : List Bool) : Sys :=
  sched.foldl sysStep s

/-- Two overlapping triggers over their animation sequences: lock
initially free, both triggers about to poll, nothing emitted. -/
def initSys (seq0 seq1 : List AnimStep) : Sys :=
  ⟨false, TaskState.waiting (sweepBlocks 0 seq0),
    TaskState.waiting (sweepBlocks 1 seq1), []⟩

/-- The toggles in a trace performed by the given trigger. -/
def byTask (task : Nat) (tr : List Tog) : List Tog :=
  tr.filter (fun e => e.task == task)

/-- A trace is serialized when one trigger's toggles all precede the
other's — the two sweeps never interleave. -/
def Serialized (tr : List Tog) : Prop :=
  tr = byTask 0 tr ++ byTask 1 tr ∨ tr = byTask 1 tr ++ byTask 0 tr

/-- All toggles a trigger has yet to emit carry its own tag. -/
def TaggedTask (task : Nat) (ts : TaskState) : Prop :=
  ∀ b ∈ ts.pending, ∀ e ∈ b, e.task = task

/-- The inductive invariant of the two-trigger system: pending blocks
are correctly tagged; at most one trigger holds the lock, and the lock
is set exactly when one does; a still-polling trigger has emitted
nothing; the trace is serialized; and the holder's toggles are the
trace's final segment. -/
structure SysInv (s : Sys) : Prop where
  tag0 : TaggedTask 0 s.t0
  tag1 : TaggedTask 1 s.t1
  mutex : ¬(s.t0.isRunning = true ∧ s.t1.isRunning = true)
  lockiff : s.lock = true ↔ (s.t0.isRunning = true ∨ s.t1.isRunning = true)
  w0 : s.t0.isWaiting = true → byTask 0 s.trace = []
  w1 : s.t1.isWaiting = true → byTask 1 s.trace = []
  ser : Serialized s.trace
  r0 : s.t0.isRunning = true →
    byTask 1 s.trace = [] ∨ s.trace = byTask 1 s.trace ++ byTask 0 s.trace
  r1 : s.t1.isRunning = true →
    byTask 0 s.trace = [] ∨ s.trace = byTask 0 s.trace ++ byTask 1 s.trace

/-! ## Viewport Fit Calculator (hooks/useViewportAwareFitView.ts)

JS numbers are modelled as exact rationals. -/

/-- The parameters passed to `fitView`: padding and zoom bounds. -/
structure FitParams where
  padding : ℚ
  minZoom : ℚ
  maxZoom : ℚ
deriving Repr, DecidableEq

/-- `fitViewWithViewportLogic` from `useViewportAwareFitView.ts`
(lines 17–53), with `window.innerHeight`/`window.innerWidth` passed
explicitly: derive the available area, pick the padding tier, and pick
zoom bounds depending on the chat expansion state. -/
def fitViewWithViewportLogic (windowHeight windowWidth chatHeight : ℚ)
    (isExpanded : Bool) : FitParams :=
  let availableHeight := windowHeight - chatHeight - 40
  let availableWidth := windowWidth - 320
  let padding : ℚ :=
    if availableHeight < 400 ∨ availableWidth < 600 then 0.15
    else if availableHeight < 600 ∨ availableWidth < 800 then 0.25
    else 0.35
  if isExpanded then
    { padding := padding,
      minZoom := max 0.4 (availableHeight / 1200),
      maxZoom := min 1.8 (availableWidth / 600) }
  else
    { padding := padding, minZoom := 0.6, maxZoom := 1.8 }

/-- The viewport-fit computation as the spec's §4.4 words state it, for
comparison with the implementation. -/
def computeFitSpec (windowHeight windowWidth chatHeight : ℚ)
    (isExpanded : Bool) : FitParams :=
  let availableHeight := windowHeight - chatHeight - 40
  let availableWidth := windowWidth - 320
  { padding :=
      if availableHeight < 400 ∨ availableWidth < 600 then 0.15
      else if availableHeight < 600 ∨ availableWidth < 800 then 0.25
      else 0.35,
    minZoom := if isExpanded then max 0.4 (availableHeight / 1200) else 0.6,
    maxZoom := if isExpanded then min 1.8 (availableWidth / 600) else 1.8 }

/-! ## Chat Panel Height Observer (`useChatAreaMeasurement`)

The debounced update (`debouncedHeightUpdate`): each incoming
measurement clears any pending timer and schedules a new one
`debounceMs` later; when a timer fires, the `{height, isExpanded}`
state is set from the measurement, with `isExpanded = height > 76`.
Measurements are modelled as (arrival time, height) pairs in arrival
order; a pending timer is `(fire time, value)`; an arrival cancels the
pending timer exactly when it comes before the fire time.  The trailing
quiet period lets the last pending timer fire. -/

/-- Default debounce interval of `useChatAreaMeasurement` (150 ms). -/
def defaultDebounceMs : Nat := 150

/-- Debounce interval used when the hook is composed in the app
(`debounceMs: 100` in `App.tsx`). -/
def appDebounceMs : Nat := 100

/-- One emitted `{height, isExpanded}` update: `setHeight(h)` together
with `setIsExpanded(h > 76)`. -/
def emitUpdate (h : ℚ) : ℚ × Bool := (h, decide (h > 76))

/-- The debounce engine: process the measurements in order against the
pending timer, emitting the pending value whenever a measurement
arrives after the timer's fire time, and flushing the final pending
timer during the trailing quiet period. -/
def debounceRun (d : Nat) : List (Nat × ℚ) → Option (Nat × ℚ) → List (ℚ × Bool)
  | [], none => []
  | [], some (_, v) => [emitUpdate v]
  | (t, h) :: rest, none => debounceRun d rest (some (t + d, h))
  | (t, h) :: rest, some (ft, v) =>
    if t < ft then debounceRun d rest (some (t + d, h))
    else emitUpdate v :: debounceRun d rest (some (t + d, h))

/-- Each measurement (after the first) arrives before the previous
measurement's debounce timer fires. -/
def gapsWithin (d : Nat) : List (Nat × ℚ) → Bool
  | (t1, _) :: (t2, h2) :: rest =>
    decide (t2 < t1 + d) && gapsWithin d ((t2, h2) :: rest)
  | _ => true

end TransportAuthority

namespace TransportAuthority

/-! ## Theorems: C6, C9, C10 -/

/-- C6: a prompt that trims to empty makes `sendMessageWithCallback`
return immediately: the state (message log and `loading` flag) is
unchanged, no callback is invoked, and no network request is issued. -/
theorem empty_prompt_noop (prompt : String) (cb : Callbacks) (net : NetOutcome)
    (uid pid rid eid : String) (st : AgentState)
    (h : jsTrim prompt = "") :
    sendMessageWithCallback prompt cb net uid pid rid eid st = (st, [], Except.ok ()) := by
  simp [sendMessageWithCallback, h]

/-- Witness for C6 at the whitespace prompt `"   "`. -/
theorem empty_prompt_noop_witness :
    jsTrim "   " = "" ∧
      sendMessageWithCallback "   " Callbacks.noThrow (NetOutcome.success "hi")
        "u" "p" "r" "e" ⟨[], false⟩ = (⟨[], false⟩, [], Except.ok ()) :=
  ⟨by decide, empty_prompt_noop "   " Callbacks.noThrow (NetOutcome.success "hi")
    "u" "p" "r" "e" ⟨[], false⟩ (by decide)⟩

/-- C9: the promise-returning `sendMessage` variant rejects empty input:
a prompt that trims to empty throws `Error("Prompt cannot be empty")`
with the state untouched (in particular `loading` is never set) and no
network request issued. -/
theorem sendMessage_empty_throws (prompt : String) (net : NetOutcome) (st : AgentState)
    (h : jsTrim prompt = "") :
    sendMessage prompt net st = (SendResult.thrown "Prompt cannot be empty", st, []) := by
  simp [sendMessage, h]

/-- Witness for C9 at the whitespace prompt `"  "`. -/
theorem sendMessage_empty_throws_witness :
    jsTrim "  " = "" ∧
      sendMessage "  " NetOutcome.failure ⟨[], false⟩ =
        (SendResult.thrown "Prompt cannot be empty", ⟨[], false⟩, []) :=
  ⟨by decide, sendMessage_empty_throws "  " NetOutcome.failure ⟨[], false⟩ (by decide)⟩

/-- Helper: rewriting the tail of a log that ends in the user/placeholder
pair replaces the placeholder in place. -/
theorem setLastJS_cons (a : Message) (t : List Message) (m : Message) :
    setLastJS (a :: t) m = (a :: t).dropLast ++ [m] := rfl

theorem setLastJS_append_pair (l : List Message) (u p m : Message) :
    setLastJS (l ++ [u, p]) m = l ++ [u, m] := by
  cases l with
  | nil => rfl
  | cons a t =>
    have h1 : (a :: t) ++ [u, p] = a :: (t ++ [u, p]) := rfl
    have h2 : a :: (t ++ [u, p]) = ((a :: t) ++ [u]) ++ [p] := by simp
    rw [h1, setLastJS_cons, h2, List.dropLast_concat]
    simp

/-- The assistant message the log ends with after the network call
settles: the response text (animated) on success, the fixed fallback
string (not animated) on failure. -/
def finalAssistantMessage (net : NetOutcome) (rid eid : String) : Message :=
  match net with
  | NetOutcome.success r => ⟨Role.ASSISTANT, r, rid, true⟩
  | NetOutcome.failure => ⟨Role.ASSISTANT, errorMessage, eid, false⟩

/-- C1: after a single `sendMessageWithCallback` call with non-empty
trimmed prompt settles (network success or failure, callbacks not
throwing, no concurrent mutation), the log equals the old log extended
by exactly the user message (content = prompt) and a final assistant
message that is the server response with `animate = true` on success
and exactly the fixed error string with `animate = false` on failure —
so its length is the old length plus 2, its second-to-last entry is the
user message, and its last entry is never the `"..."` placeholder
message. -/
theorem placeholder_replacement (prompt : String) (net : NetOutcome)
    (uid pid rid eid : String) (st : AgentState)
    (h : jsTrim prompt ≠ "") :
    (sendMessageWithCallback prompt Callbacks.noThrow net uid pid rid eid st).1.messages
        = st.messages ++ [⟨Role.USER, prompt, uid, false⟩, finalAssistantMessage net rid eid] ∧
      (sendMessageWithCallback prompt Callbacks.noThrow net uid pid rid eid st).1.messages.length
        = st.messages.length + 2 := by
  have hmsgs : (sendMessageWithCallback prompt Callbacks.noThrow net uid pid rid eid st).1.messages
      = st.messages ++ [⟨Role.USER, prompt, uid, false⟩, finalAssistantMessage net rid eid] := by
    unfold sendMessageWithCallback
    rw [if_neg h]
    cases net with
    | success r =>
      simp [Callbacks.noThrow, finalAssistantMessage, setLastJS_append_pair]
    | failure =>
      simp [Callbacks.noThrow, finalAssistantMessage, setLastJS_append_pair]
  refine ⟨hmsgs, ?_⟩
  rw [hmsgs]
  simp

/-- Witness for C1 at prompt `"hi"` on a log of length 1. -/
theorem placeholder_replacement_witness :
    jsTrim "hi" ≠ "" ∧
      ((sendMessageWithCallback "hi" Callbacks.noThrow (NetOutcome.success "ok!")
          "u" "p" "r" "e" ⟨[⟨Role.USER, "old", "o", false⟩], false⟩).1.messages
        = [⟨Role.USER, "old", "o", false⟩, ⟨Role.USER, "hi", "u", false⟩,
           ⟨Role.ASSISTANT, "ok!", "r", true⟩] ∧
       (sendMessageWithCallback "hi" Callbacks.noThrow (NetOutcome.success "ok!")
          "u" "p" "r" "e" ⟨[⟨Role.USER, "old", "o", false⟩], false⟩).1.messages.length = 3) :=
  ⟨by decide,
   placeholder_replacement "hi" (NetOutcome.success "ok!") "u" "p" "r" "e"
     ⟨[⟨Role.USER, "old", "o", false⟩], false⟩ (by decide)⟩

/-- Counterexample to C2 as stated: a synchronous throw from the
caller-supplied `onStart` callback happens before the `try`/`finally`
block, so the call settles (rejects) with `loading` still `true`. -/
theorem busy_flag_cleanup_counterexample :
    (sendMessageWithCallback "hi" ⟨true, false, false⟩ NetOutcome.failure
        "u" "p" "r" "e" ⟨[], false⟩).1.loading = true ∧
      (sendMessageWithCallback "hi" ⟨true, false, false⟩ NetOutcome.failure
        "u" "p" "r" "e" ⟨[], false⟩).2.2 = Except.error () := by
  constructor <;> rfl

/-- C2 (amended): for every outcome of `sendMessageWithCallback` with a
non-empty trimmed prompt in which the `onStart` callback does not throw
— the network call resolving, the network call rejecting, or a
synchronous throw from the `onSuccess`/`onError` callbacks inside the
`try` block — `loading` is `false` after the call settles.  (A throwing
`onStart` runs before the `try` block and leaves `loading = true`.) -/
theorem busy_flag_cleanup (prompt : String) (cb : Callbacks) (net : NetOutcome)
    (uid pid rid eid : String) (st : AgentState)
    (h : jsTrim prompt ≠ "") (hstart : cb.onStartThrows = false) :
    (sendMessageWithCallback prompt cb net uid pid rid eid st).1.loading = false := by
  unfold sendMessageWithCallback
  rw [if_neg h]
  cases net with
  | success r => cases hs : cb.onSuccessThrows <;> simp [hstart, hs]
  | failure => simp [hstart]

/-- Witness for the amended C2: a throwing `onSuccess` callback still
ends with `loading = false`. -/
theorem busy_flag_cleanup_witness :
    jsTrim "hi" ≠ "" ∧ (⟨false, true, true⟩ : Callbacks).onStartThrows = false ∧
      (sendMessageWithCallback "hi" ⟨false, true, true⟩ (NetOutcome.success "ok")
        "u" "p" "r" "e" ⟨[], true⟩).1.loading = false :=
  ⟨by decide, rfl,
   busy_flag_cleanup "hi" ⟨false, true, true⟩ (NetOutcome.success "ok")
     "u" "p" "r" "e" ⟨[], true⟩ (by decide) rfl⟩

/-- C10: the tail rewrite `arr[arr.length - 1] = m` never changes the
array's length, and on an empty log (conversation cleared while the
request was in flight) both the success rewrite and the error rewrite
leave the log empty: nothing is appended and no error is raised. -/
theorem setLastJS_empty_noop (r rid eid : String) (l : List Message) (m : Message) :
    (setLastJS l m).length = l.length ∧
      setLastJS [] ⟨Role.ASSISTANT, r, rid, true⟩ = [] ∧
      setLastJS [] ⟨Role.ASSISTANT, errorMessage, eid, false⟩ = [] := by
  refine ⟨?_, rfl, rfl⟩
  match l with
  | [] => rfl
  | a :: t =>
    simp [setLastJS]

/-- C4: with the lock held and `aiReplied = false`, the sequencer
iterates the animation sequence strictly in order, and for each step
toggles every listed id active, waits the fixed 500 ms highlight
duration, toggles the same ids inactive, and waits again, before the
next step — a sequential highlight→unhighlight pulse per step. -/
theorem sweep_sequential (seq : List AnimStep) :
    (animateGraph false seq).actions =
      seq.flatMap (fun step =>
        step.ids.map (fun i => Action.toggle i true) ++ [Action.wait 500] ++
        step.ids.map (fun i => Action.toggle i false) ++ [Action.wait 500]) := by
  show sweep seq = _
  induction seq with
  | nil => rfl
  | cons step rest ih =>
    simp only [sweep, List.flatMap_cons, ih, animate, HIGHLIGHT.ON, HIGHLIGHT.OFF,
      DELAY_DURATION, List.append_assoc]

/-- C5: if `aiReplied` is true when the sequencer acquires the lock, no
toggle (and no delay) is performed and `aiReplied` is reset to false;
and in both branches `buttonClicked` is reset and the lock released at
the end of the run. -/
theorem reply_short_circuit (seq : List AnimStep) (ai : Bool) :
    (animateGraph true seq).actions = [] ∧
      (animateGraph true seq).aiReplied = false ∧
      (animateGraph ai seq).buttonClicked = false ∧
      (animateGraph ai seq).animationLock = false := by
  refine ⟨rfl, rfl, ?_, ?_⟩ <;> cases ai <;> rfl

/-- C7: the implemented fit computation agrees, on every input, with
the specified one: `availableHeight = windowHeight - chatHeight - 40`,
`availableWidth = windowWidth - 320`, padding 0.15 below the 400h/600w
tier, 0.25 below the 600h/800w tier, else 0.35, and zoom bounds
`max 0.4 (availableHeight/1200)` / `min 1.8 (availableWidth/600)` when
expanded, else the fixed 0.6 / 1.8. -/
theorem fitView_correct (windowHeight windowWidth chatHeight : ℚ) (isExpanded : Bool) :
    fitViewWithViewportLogic windowHeight windowWidth chatHeight isExpanded =
      computeFitSpec windowHeight windowWidth chatHeight isExpanded := by
  cases isExpanded <;> rfl

/-- Helper for C8: once a timer is pending for the most recent
measurement and every remaining measurement arrives before the then
pending timer fires, exactly the final measurement is emitted. -/
theorem debounceRun_pending_last (d : Nat) (evts : List (Nat × ℚ)) :
    ∀ (t : Nat) (v : ℚ), gapsWithin d ((t, v) :: evts) = true →
      debounceRun d evts (some (t + d, v)) =
        [emitUpdate (((t, v) :: evts).getLast (by simp)).2] := by
  induction evts with
  | nil => intro t v _; rfl
  | cons e rest ih =>
    intro t v hg
    obtain ⟨t2, h2⟩ := e
    rw [gapsWithin, Bool.and_eq_true] at hg
    obtain ⟨hlt, hrest⟩ := hg
    rw [debounceRun, if_pos (of_decide_eq_true hlt), ih t2 h2 hrest]
    rw [List.getLast_cons (List.cons_ne_nil _ _)]

/-- C8: a non-empty burst of measurements, each arriving within one
debounce interval of the previous, followed by a quiet period, makes
the chat-height observer emit exactly one `{height, isExpanded}` update
— not one per measurement — whose height is the final measurement and
whose `isExpanded` equals `height > 76`. -/
theorem height_debounce_coalesce (d : Nat) (evts : List (Nat × ℚ))
    (hne : evts ≠ []) (hgap : gapsWithin d evts = true) :
    debounceRun d evts none = [emitUpdate (evts.getLast hne).2] := by
  cases evts with
  | nil => exact absurd rfl hne
  | cons e rest =>
    obtain ⟨t, h⟩ := e
    rw [debounceRun]
    exact debounceRun_pending_last d rest t h hgap

/-! ### C3: mutual exclusion of animation sweeps -/

theorem byTask_append (k : Nat) (a b : List Tog) :
    byTask k (a ++ b) = byTask k a ++ byTask k b := by
  simp [byTask]

theorem byTask_self {k : Nat} {b : List Tog} (h : ∀ e ∈ b, e.task = k) :
    byTask k b = b :=
  List.filter_eq_self.mpr (fun e he => by simp [h e he])

theorem byTask_other {k j : Nat} {b : List Tog} (h : ∀ e ∈ b, e.task = j)
    (hkj : k ≠ j) : byTask k b = [] :=
  List.filter_eq_nil_iff.mpr (fun e he => by
    simp only [h e he, beq_iff_eq]
    exact fun hh => hkj hh.symm)

theorem sweepBlocks_tagged (k : Nat) (seq : List AnimStep) :
    ∀ b ∈ sweepBlocks k seq, ∀ e ∈ b, e.task = k := by
  intro b hb e he
  simp only [sweepBlocks, List.mem_flatMap] at hb
  obtain ⟨step, -, hb⟩ := hb
  simp only [List.mem_cons, List.not_mem_nil, or_false] at hb
  rcases hb with hb | hb <;> subst hb <;>
    · simp only [onBlock, offBlock, List.mem_map] at he
      obtain ⟨i, -, rfl⟩ := he
      rfl

/-- The invariant holds initially: lock free, nothing emitted. -/
theorem sysInv_init (seq0 seq1 : List AnimStep) : SysInv (initSys seq0 seq1) := by
  refine ⟨?_, ?_, ?_, ?_, ?_, ?_, ?_, ?_, ?_⟩
  · exact fun b hb => sweepBlocks_tagged 0 seq0 b hb
  · exact fun b hb => sweepBlocks_tagged 1 seq1 b hb
  · simp [initSys, TaskState.isRunning]
  · simp [initSys, TaskState.isRunning]
  · exact fun _ => rfl
  · exact fun _ => rfl
  · exact Or.inl rfl
  · simp [initSys, TaskState.isRunning]
  · simp [initSys, TaskState.isRunning]

/-- The invariant is preserved by every atomic block of either
trigger. -/
theorem sysInv_step {s : Sys} (inv : SysInv s) (c : Bool) : SysInv (sysStep s c) := by
  obtain ⟨lock, t0, t1, trace⟩ := s
  obtain ⟨tag0, tag1, mutex, lockiff, w0, w1, ser, r0, r1⟩ := inv
  dsimp only at tag0 tag1 mutex lockiff w0 w1 ser r0 r1
  cases c with
  | false =>
    cases t0 with
    | done =>
      simp only [sysStep, taskStep, List.append_nil]
      exact ⟨tag0, tag1, mutex, lockiff, w0, w1, ser, r0, r1⟩
    | waiting bs =>
      cases lock with
      | true =>
        simp only [sysStep, taskStep, List.append_nil]
        exact ⟨tag0, tag1, mutex, lockiff, w0, w1, ser, r0, r1⟩
      | false =>
        have hn1 : ¬t1.isRunning = true := fun h =>
          Bool.false_ne_true (lockiff.mpr (Or.inr h))
        cases bs with
        | nil =>
          simp only [sysStep, taskStep, List.append_nil]
          refine ⟨?_, tag1, ?_, ?_, ?_, w1, ser, ?_, r1⟩
          · intro b hb; simp [TaskState.pending] at hb
          · simp [TaskState.isRunning]
          · constructor
            · exact fun h => absurd h Bool.false_ne_true
            · intro h
              rcases h with h | h
              · exact absurd h (by simp [TaskState.isRunning])
              · exact absurd h hn1
          · simp [TaskState.isWaiting]
          · simp [TaskState.isRunning]
        | cons b rest =>
          have hb : ∀ e ∈ b, e.task = 0 :=
            tag0 b (by simp [TaskState.pending])
          have hb0 : byTask 0 b = b := byTask_self hb
          have hb1 : byTask 1 b = [] := byTask_other hb (by decide)
          have htr0 : byTask 0 trace = [] := w0 rfl
          have htr : trace = byTask 1 trace := by
            rcases ser with h | h
            · conv_lhs => rw [h]
              rw [htr0, List.nil_append]
            · conv_lhs => rw [h]
              rw [htr0, List.append_nil]
          have hser2 : trace ++ b =
              byTask 1 (trace ++ b) ++ byTask 0 (trace ++ b) := by
            rw [byTask_append, byTask_append, htr0, hb0, hb1,
              List.append_nil, List.nil_append, ← htr]
          simp only [sysStep, taskStep]
          refine ⟨?_, tag1, ?_, ?_, ?_, ?_, Or.inr hser2, fun _ => Or.inr hser2, ?_⟩
          · intro b2 hb2
            refine tag0 b2 ?_
            simp only [TaskState.pending] at hb2 ⊢
            exact List.mem_cons_of_mem _ hb2
          · exact fun h => hn1 h.2
          · simp [TaskState.isRunning]
          · simp [TaskState.isWaiting]
          · intro h
            rw [byTask_append, w1 h, hb1]
            rfl
          · exact fun h => absurd h hn1
    | running bs =>
      have hn1 : ¬t1.isRunning = true := fun h => mutex ⟨rfl, h⟩
      cases bs with
      | nil =>
        simp only [sysStep, taskStep, List.append_nil]
        refine ⟨?_, tag1, ?_, ?_, ?_, w1, ser, ?_, r1⟩
        · intro b hb; simp [TaskState.pending] at hb
        · simp [TaskState.isRunning]
        · constructor
          · exact fun h => absurd h Bool.false_ne_true
          · intro h
            rcases h with h | h
            · exact absurd h (by simp [TaskState.isRunning])
            · exact absurd h hn1
        · simp [TaskState.isWaiting]
        · simp [TaskState.isRunning]
      | cons b rest =>
        have hl : lock = true := lockiff.mpr (Or.inl rfl)
        have hb : ∀ e ∈ b, e.task = 0 :=
          tag0 b (by simp [TaskState.pending])
        have hb0 : byTask 0 b = b := byTask_self hb
        have hb1 : byTask 1 b = [] := byTask_other hb (by decide)
        have hser2 : trace ++ b =
            byTask 1 (trace ++ b) ++ byTask 0 (trace ++ b) := by
          rcases r0 rfl with hA | hB
          · have htr : trace = byTask 0 trace := by
              rcases ser with h | h
              · conv_lhs => rw [h]
                rw [hA, List.append_nil]
              · conv_lhs => rw [h]
                rw [hA, List.nil_append]
            rw [byTask_append, byTask_append, hA, hb0, hb1,
              List.nil_append, List.nil_append, ← htr]
          · rw [byTask_append, byTask_append, hb0, hb1, List.append_nil]
            conv_lhs => rw [hB]
            simp [List.append_assoc]
        simp only [sysStep, taskStep]
        refine ⟨?_, tag1, ?_, ?_, ?_, ?_, Or.inr hser2, fun _ => Or.inr hser2, ?_⟩
        · intro b2 hb2
          refine tag0 b2 ?_
          simp only [TaskState.pending] at hb2 ⊢
          exact List.mem_cons_of_mem _ hb2
        · exact fun h => hn1 h.2
        · simp [hl, TaskState.isRunning]
        · simp [TaskState.isWaiting]
        · intro h
          rw [byTask_append, w1 h, hb1]
          rfl
        · exact fun h => absurd h hn1
  | true =>
    cases t1 with
    | done =>
      simp only [sysStep, taskStep, List.append_nil]
      exact ⟨tag0, tag1, mutex, lockiff, w0, w1, ser, r0, r1⟩
    | waiting bs =>
      cases lock with
      | true =>
        simp only [sysStep, taskStep, List.append_nil]
        exact ⟨tag0, tag1, mutex, lockiff, w0, w1, ser, r0, r1⟩
      | false =>
        have hn0 : ¬t0.isRunning = true := fun h =>
          Bool.false_ne_true (lockiff.mpr (Or.inl h))
        cases bs with
        | nil =>
          simp only [sysStep, taskStep, List.append_nil]
          refine ⟨tag0, ?_, ?_, ?_, w0, ?_, ser, r0, ?_⟩
          · intro b hb; simp [TaskState.pending] at hb
          · simp [TaskState.isRunning]
          · constructor
            · exact fun h => absurd h Bool.false_ne_true
            · intro h
              rcases h with h | h
              · exact absurd h hn0
              · exact absurd h (by simp [TaskState.isRunning])
          · simp [TaskState.isWaiting]
          · simp [TaskState.isRunning]
        | cons b rest =>
          have hb : ∀ e ∈ b, e.task = 1 :=
            tag1 b (by simp [TaskState.pending])
          have hb1 : byTask 1 b = b := byTask_self hb
          have hb0 : byTask 0 b = [] := byTask_other hb (by decide)
          have htr1 : byTask 1 trace = [] := w1 rfl
          have htr : trace = byTask 0 trace := by
            rcases ser with h | h
            · conv_lhs => rw [h]
              rw [htr1, List.append_nil]
            · conv_lhs => rw [h]
              rw [htr1, List.nil_append]
          have hser2 : trace ++ b =
              byTask 0 (trace ++ b) ++ byTask 1 (trace ++ b) := by
            rw [byTask_append, byTask_append, htr1, hb0, hb1,
              List.append_nil, List.nil_append, ← htr]
          simp only [sysStep, taskStep]
          refine ⟨tag0, ?_, ?_, ?_, ?_, ?_, Or.inl hser2, ?_, fun _ => Or.inr hser2⟩
          · intro b2 hb2
            refine tag1 b2 ?_
            simp only [TaskState.pending] at hb2 ⊢
            exact List.mem_cons_of_mem _ hb2
          · exact fun h => hn0 h.1
          · simp [TaskState.isRunning]
          · intro h
            rw [byTask_append, w0 h, hb0]
            rfl
          · simp [TaskState.isWaiting]
          · exact fun h => absurd h hn0
    | running bs =>
      have hn0 : ¬t0.isRunning = true := fun h => mutex ⟨h, rfl⟩
      cases bs with
      | nil =>
        simp only [sysStep, taskStep, List.append_nil]
        refine ⟨tag0, ?_, ?_, ?_, w0, ?_, ser, r0, ?_⟩
        · intro b hb; simp [TaskState.pending] at hb
        · simp [TaskState.isRunning]
        · constructor
          · exact fun h => absurd h Bool.false_ne_true
          · intro h
            rcases h with h | h
            · exact absurd h hn0
            · exact absurd h (by simp [TaskState.isRunning])
        · simp [TaskState.isWaiting]
        · simp [TaskState.isRunning]
      | cons b rest =>
        have hl : lock = true := lockiff.mpr (Or.inr rfl)
        have hb : ∀ e ∈ b, e.task = 1 :=
          tag1 b (by simp [TaskState.pending])
        have hb1 : byTask 1 b = b := byTask_self hb
        have hb0 : byTask 0 b = [] := byTask_other hb (by decide)
        have hser2 : trace ++ b =
            byTask 0 (trace ++ b) ++ byTask 1 (trace ++ b) := by
          rcases r1 rfl with hA | hB
          · have htr : trace = byTask 1 trace := by
              rcases ser with h | h
              · conv_lhs => rw [h]
                rw [hA, List.nil_append]
              · conv_lhs => rw [h]
                rw [hA, List.append_nil]
            rw [byTask_append, byTask_append, hA, hb0, hb1,
              List.nil_append, List.nil_append, ← htr]
          · rw [byTask_append, byTask_append, hb0, hb1, List.append_nil]
            conv_lhs => rw [hB]
            simp [List.append_assoc]
        simp only [sysStep, taskStep]
        refine ⟨tag0, ?_, ?_, ?_, ?_, ?_, Or.inl hser2, ?_, fun _ => Or.inr hser2⟩
        · intro b2 hb2
          refine tag1 b2 ?_
          simp only [TaskState.pending] at hb2 ⊢
          exact List.mem_cons_of_mem _ hb2
        · exact fun h => hn0 h.1
        · simp [hl, TaskState.isRunning]
        · intro h
          rw [byTask_append, w0 h, hb0]
          rfl
        · simp [TaskState.isWaiting]
        · exact fun h => absurd h hn0

/-- The invariant holds after any schedule. -/
theorem sysInv_run {s : Sys} (inv : SysInv s) (sched : List Bool) :
    SysInv (sysRun s sched) := by
  induction sched generalizing s with
  | nil => exact inv
  | cons c rest ih => exact ih (sysInv_step inv c)

/-- C3: under every interleaving of the two triggers' atomic blocks, at
most one sweep holds the animation lock at any time (a trigger arriving
while the lock is held keeps polling and acquires only once it is
free), and the emitted toggle trace is serialized: one trigger's
active/inactive toggles all precede the other's, so the second
trigger's first toggle happens only after the first sweep has released
the lock. -/
theorem animation_mutual_exclusion (seq0 seq1 : List AnimStep) (sched : List Bool) :
    ¬((sysRun (initSys seq0 seq1) sched).t0.isRunning = true ∧
        (sysRun (initSys seq0 seq1) sched).t1.isRunning = true) ∧
      Serialized (sysRun (initSys seq0 seq1) sched).trace :=
  ⟨(sysInv_run (sysInv_init seq0 seq1) sched).mutex,
   (sysInv_run (sysInv_init seq0 seq1) sched).ser⟩

set_option maxRecDepth 4000 in
/-- Witness for C8: three rapid measurements (gaps of 100 ms under the
default 150 ms interval) coalesce into the single update for the final
height 120, with `isExpanded = true`. -/
theorem height_debounce_coalesce_witness :
    ([((0 : Nat), (50 : ℚ)), (100, 60), (200, 120)] ≠ ([] : List (Nat × ℚ))) ∧
      gapsWithin defaultDebounceMs [(0, 50), (100, 60), (200, 120)] = true ∧
      debounceRun defaultDebounceMs [(0, 50), (100, 60), (200, 120)] none =
        [(120, true)] :=
  ⟨by decide, by decide,
   height_debounce_coalesce defaultDebounceMs [(0, 50), (100, 60), (200, 120)]
     (by decide) (by decide)⟩

end TransportAuthority
